import Mathlib

/-!
Verification of the dual virtual element discretization (`dual.py`) and of the
mesh-hierarchy construction (`porepy/fracs/meshing.py`) of this repository.

The Python code is shallowly embedded: numpy arrays become functions out of
`Fin` types or `List`s, floating-point numbers become exact rationals, sparse
matrices become their entry functions together with an explicit
coordinate-triplet assembly, and a Python `assert` that can abort a
computation turns the embedded function into an `Option`-valued one.
-/

open Matrix

namespace PorePy

/-- Tolerance `tol = 1e-10` used by the consistency assertion in `matrix` and
`projectU`. -/
def tol : ℚ := 1 / 10 ^ 10

/-- The permeability object `second_order_tensor`: a per-cell tensor, read by
`dual.py` through the slice `k.perm[0:g.dim, 0:g.dim, c]`.  The field `symm`
is modelled from the spec: the data model declares the per-cell permeability
block to be a symmetric (positive-definite) matrix; the tensor class itself
is an external collaborator, not part of the sources. -/
structure SecondOrderTensor (nc : ℕ) where
  perm : Fin nc → ℕ → ℕ → ℚ
  symm : ∀ c i j, perm c i j = perm c j i

/-- The part of the external `grid` capability that `dual.py` reads.
`cellFacesList c` is the (ordered) column `c` of the CSC matrix
`g.cell_faces` as enumerated by `sps.find` together with the `indptr`
slices: the list of (face index, orientation sign) pairs of cell `c`.
Geometry arrays are total functions; `dual.py` only reads coordinate rows
`0 ≤ i < dim` of `face_normals`, `face_centers` and `cell_centers`. -/
structure Grid where
  dim : ℕ
  num_faces : ℕ
  num_cells : ℕ
  cellFacesList : Fin num_cells → List (Fin num_faces × ℚ)
  face_normals : ℕ → Fin num_faces → ℚ
  face_centers : ℕ → Fin num_faces → ℚ
  cell_centers : ℕ → Fin num_cells → ℚ
  cell_volumes : Fin num_cells → ℚ
  cell_diameters : Fin num_cells → ℚ

/-- Number of local degrees of freedom of cell `c` (`ndof = faces_loc.size`). -/
def ndof (g : Grid) (c : Fin g.num_cells) : ℕ :=
  (g.cellFacesList c).length

/-- `faces_loc`: the face index at local position `i` of cell `c`. -/
def facesLoc (g : Grid) (c : Fin g.num_cells) (i : Fin (ndof g c)) : Fin g.num_faces :=
  ((g.cellFacesList c).get i).1

/-- `sgn_loc`: the orientation sign at local position `i` of cell `c`. -/
def sgnLoc (g : Grid) (c : Fin g.num_cells) (i : Fin (ndof g c)) : ℚ :=
  ((g.cellFacesList c).get i).2

/-- `grad = np.eye(g.dim)/diams[c]`: the constant gradients of the scaled
monomial basis. -/
def localGrad (g : Grid) (c : Fin g.num_cells) : Matrix (Fin g.dim) (Fin g.dim) ℚ :=
  (g.cell_diameters c)⁻¹ • 1

/-- `K = k.perm[0:g.dim, 0:g.dim, c]`: the cell's permeability block. -/
def Kloc (g : Grid) (k : SecondOrderTensor g.num_cells) (c : Fin g.num_cells) :
    Matrix (Fin g.dim) (Fin g.dim) ℚ :=
  Matrix.of fun i j => k.perm c (i : ℕ) (j : ℕ)

/-- `normals = g.face_normals[0:g.dim, faces[loc]]`: the normals of the
cell's faces, one column per local face. -/
def Nloc (g : Grid) (c : Fin g.num_cells) : Matrix (Fin g.dim) (Fin (ndof g c)) ℚ :=
  Matrix.of fun i j => g.face_normals (i : ℕ) (facesLoc g c j)

/-- Local matrix `D`: `D[f,i] = normals[:,f] · (K · grad[i,:])`, i.e.
`D = normalsᵀ · K · gradᵀ`. -/
def localD (g : Grid) (k : SecondOrderTensor g.num_cells) (c : Fin g.num_cells) :
    Matrix (Fin (ndof g c)) (Fin g.dim) ℚ :=
  (Nloc g c)ᵀ * Kloc g k c * (localGrad g c)ᵀ

/-- Local matrix `G = grad · K · gradᵀ · cell_volumes[c]`. -/
def localG (g : Grid) (k : SecondOrderTensor g.num_cells) (c : Fin g.num_cells) :
    Matrix (Fin g.dim) (Fin g.dim) ℚ :=
  g.cell_volumes c • (localGrad g c * Kloc g k c * (localGrad g c)ᵀ)

/-- Local matrix `F`: `F[i,f] = sgn[f] * mono_i(face_centers[:,f])` with
`mono_i(pt) = (pt[i] - cell_center[i]) / diam`. -/
def localF (g : Grid) (c : Fin g.num_cells) :
    Matrix (Fin g.dim) (Fin (ndof g c)) ℚ :=
  Matrix.of fun i j =>
    sgnLoc g c j *
      ((g.face_centers (i : ℕ) (facesLoc g c j) - g.cell_centers (i : ℕ) c) /
        g.cell_diameters c)

/-- The per-cell consistency assertion
`assert np.all(np.abs(G - np.dot(F, D)) < tol)`. -/
abbrev consistencyOK (g : Grid) (k : SecondOrderTensor g.num_cells)
    (c : Fin g.num_cells) : Prop :=
  ∀ i j, |(localG g k c - localF g c * localD g k c) i j| < tol

/-- Exact inverse of a square rational matrix, as computed by
`np.linalg.inv` on the small dense local systems. -/
def minv {n : ℕ} (A : Matrix (Fin n) (Fin n) ℚ) : Matrix (Fin n) (Fin n) ℚ :=
  (A.det)⁻¹ • A.adjugate

/-- `np.linalg.norm(·, np.inf)` of a matrix: the maximum absolute row sum. -/
def normInf {m n : ℕ} (A : Matrix (Fin m) (Fin n) ℚ) : ℚ :=
  ((List.finRange m).map fun i => ∑ j, |A i j|).foldr max 0

/-- Local matrix `Pi_s = np.dot(np.linalg.inv(G), F)`. -/
def Pi_s (g : Grid) (k : SecondOrderTensor g.num_cells) (c : Fin g.num_cells) :
    Matrix (Fin g.dim) (Fin (ndof g c)) ℚ :=
  minv (localG g k c) * localF g c

/-- `I_Pi = np.eye(ndof) - np.dot(D, Pi_s)`. -/
def I_Pi (g : Grid) (k : SecondOrderTensor g.num_cells) (c : Fin g.num_cells) :
    Matrix (Fin (ndof g c)) (Fin (ndof g c)) ℚ :=
  1 - localD g k c * Pi_s g k c

/-- The stabilization weight `w = np.linalg.norm(np.linalg.inv(K), np.inf)`. -/
def stabWeight (g : Grid) (k : SecondOrderTensor g.num_cells) (c : Fin g.num_cells) : ℚ :=
  normInf (minv (Kloc g k c))

/-- The local Hdiv-stiffness block
`A = np.dot(Pi_s.T, np.dot(G, Pi_s)) + w * np.dot(I_Pi.T, I_Pi)`. -/
def localA (g : Grid) (k : SecondOrderTensor g.num_cells) (c : Fin g.num_cells) :
    Matrix (Fin (ndof g c)) (Fin (ndof g c)) ℚ :=
  (Pi_s g k c)ᵀ * (localG g k c * Pi_s g k c) +
    stabWeight g k c • ((I_Pi g k c)ᵀ * I_Pi g k c)

/-- The COO triplets `(I, J, data)` written by cell `c`: with
`cols = np.tile(faces_loc, (ndof,1))`, entry `r*ndof + s` of the three
flattened arrays is `(faces_loc[r], faces_loc[s], A[r,s])`. -/
def cellTriplets (g : Grid) (k : SecondOrderTensor g.num_cells) (c : Fin g.num_cells) :
    List (Fin g.num_faces × Fin g.num_faces × ℚ) :=
  ((List.finRange (ndof g c)).map fun r =>
    (List.finRange (ndof g c)).map fun s =>
      (facesLoc g c r, facesLoc g c s, localA g k c r s)).flatten

/-- All COO triplets accumulated over the cell loop. -/
def allTriplets (g : Grid) (k : SecondOrderTensor g.num_cells) :
    List (Fin g.num_faces × Fin g.num_faces × ℚ) :=
  ((List.finRange g.num_cells).map (cellTriplets g k)).flatten

/-- Entry `(i, j)` of the sparse matrix built by `sps.coo_matrix` from a
triplet list: duplicate `(row, col)` coordinates are summed, not
overwritten. -/
def cooEntry {nf : ℕ} (ts : List (Fin nf × Fin nf × ℚ)) (i j : Fin nf) : ℚ :=
  (ts.map fun t => if t.1 = i ∧ t.2.1 = j then t.2.2 else 0).sum

/-- The global mass block `mass = sps.coo_matrix((data, (I, J))).tocsr()`. -/
def mass (g : Grid) (k : SecondOrderTensor g.num_cells) :
    Matrix (Fin g.num_faces) (Fin g.num_faces) ℚ :=
  Matrix.of fun i j => cooEntry (allTriplets g k) i j

/-- The signed cell-to-face incidence matrix `g.cell_faces`, recovered from
its per-cell columns. -/
def cell_faces (g : Grid) : Matrix (Fin g.num_faces) (Fin g.num_cells) ℚ :=
  Matrix.of fun f c => ((g.cellFacesList c).map fun p => if p.1 = f then p.2 else 0).sum

/-- `div = -g.cell_faces.T`. -/
def div (g : Grid) : Matrix (Fin g.num_cells) (Fin g.num_faces) ℚ :=
  -(cell_faces g)ᵀ

/-- The assembled saddle-point matrix
`sps.bmat([[mass, div.T], [div, None]])`, reindexed over
`Fin (num_faces + num_cells)`. -/
def matrixVal (g : Grid) (k : SecondOrderTensor g.num_cells) :
    Matrix (Fin (g.num_faces + g.num_cells)) (Fin (g.num_faces + g.num_cells)) ℚ :=
  (Matrix.fromBlocks (mass g k) (div g)ᵀ (div g) 0).submatrix
    finSumFinEquiv.symm finSumFinEquiv.symm

/-- The function `matrix(g, k, bc=None)` of `dual.py`.  The optional `bc`
argument may be anything; the per-cell `assert` makes the whole call fail
(produce no matrix) as soon as one cell violates the consistency
identity. -/
def matrix {α : Type} (g : Grid) (k : SecondOrderTensor g.num_cells) (bc : α) :
    Option (Matrix (Fin (g.num_faces + g.num_cells)) (Fin (g.num_faces + g.num_cells)) ℚ) :=
  if ∀ c, consistencyOK g k c then some (matrixVal g k) else none

/-- The function `rhs(g, f, bc=None)` of `dual.py`: zero on the flux
unknowns, `-cell_volumes[c] * f(cell_centers[:, c])` on the pressure
unknowns. -/
def rhs {α : Type} (g : Grid) (f : (ℕ → ℚ) → ℚ) (bc : α) :
    Fin (g.num_faces + g.num_cells) → ℚ :=
  fun i =>
    if h : (i : ℕ) < g.num_faces then 0
    else
      -(g.cell_volumes ⟨(i : ℕ) - g.num_faces, by have := i.isLt; omega⟩ *
        f (fun d => g.cell_centers d ⟨(i : ℕ) - g.num_faces, by have := i.isLt; omega⟩))

/-- The function `extract(g, up)` of `dual.py`:
`return up[:g.num_faces], up[g.num_faces:]` (plain slicing, no checks). -/
def extract (g : Grid) (up : List ℚ) : List ℚ × List ℚ :=
  (up.take g.num_faces, up.drop g.num_faces)

/-- The reconstructed field written by `projectU` when every cell passes the
consistency assertion:
`P0u[:g.dim, c] = np.dot(Pi_s, u[faces_loc]) / diams[c]`,
the remaining coordinate rows of the 3×num_cells array staying zero. -/
def projectUVal (g : Grid) (k : SecondOrderTensor g.num_cells)
    (u : Fin g.num_faces → ℚ) : Matrix (Fin 3) (Fin g.num_cells) ℚ :=
  Matrix.of fun i c =>
    if h : (i : ℕ) < g.dim then
      (∑ j, Pi_s g k c ⟨(i : ℕ), h⟩ j * u (facesLoc g c j)) / g.cell_diameters c
    else 0

/-- The function `projectU(g, k, u)` of `dual.py`; it re-runs the same
per-cell consistency assertion as `matrix`. -/
def projectU (g : Grid) (k : SecondOrderTensor g.num_cells) (u : Fin g.num_faces → ℚ) :
    Option (Matrix (Fin 3) (Fin g.num_cells) ℚ) :=
  if ∀ c, consistencyOK g k c then some (projectUVal g k u) else none

/-! ### Concrete instances: a 1D Cartesian grid with two unit cells -/

/-- A 1D grid with cells `[0,1]`, `[1,2]`: three faces at `x = 0, 1, 2`,
face 1 shared by both cells. -/
@[reducible] def gW : Grid where
  dim := 1
  num_faces := 3
  num_cells := 2
  cellFacesList := fun c =>
    if (c : ℕ) = 0 then [((0 : Fin 3), (-1 : ℚ)), ((1 : Fin 3), 1)]
    else [((1 : Fin 3), (-1 : ℚ)), ((2 : Fin 3), 1)]
  face_normals := fun _ _ => 1
  face_centers := fun i f => if i = 0 then ((f : ℕ) : ℚ) else 0
  cell_centers := fun i c => if i = 0 then ((c : ℕ) : ℚ) + 1 / 2 else 0
  cell_volumes := fun _ => 1
  cell_diameters := fun _ => 1

/-- Unit isotropic permeability on two cells. -/
@[reducible] def kW : SecondOrderTensor 2 where
  perm := fun _ _ _ => 1
  symm := fun _ _ _ => rfl

/-- The grid `gW` with the center of face 1 perturbed to `0.9`, which breaks
the consistency identity of cell 0 by `0.1 > tol`. -/
@[reducible] def gBad : Grid where
  dim := 1
  num_faces := 3
  num_cells := 2
  cellFacesList := fun c =>
    if (c : ℕ) = 0 then [((0 : Fin 3), (-1 : ℚ)), ((1 : Fin 3), 1)]
    else [((1 : Fin 3), (-1 : ℚ)), ((2 : Fin 3), 1)]
  face_normals := fun _ _ => 1
  face_centers := fun i f => if i = 0 then (if f = 1 then 9 / 10 else ((f : ℕ) : ℚ)) else 0
  cell_centers := fun i c => if i = 0 then ((c : ℕ) : ℚ) + 1 / 2 else 0
  cell_volumes := fun _ => 1
  cell_diameters := fun _ => 1

set_option maxHeartbeats 1000000 in
lemma gW_consistent : ∀ c, consistencyOK gW kW c := by
  intro c i j
  fin_cases c <;> fin_cases i <;> fin_cases j
  · have e1 : ∀ hx, sgnLoc gW ⟨0, by decide⟩ ⟨0, hx⟩ = -1 := fun _ => rfl
    have e2 : ∀ hx, sgnLoc gW ⟨0, by decide⟩ ⟨1, hx⟩ = 1 := fun _ => rfl
    have e3 : ∀ hx, ((facesLoc gW ⟨0, by decide⟩ ⟨0, hx⟩ : Fin 3) : ℕ) = 0 := fun _ => rfl
    have e4 : ∀ hx, ((facesLoc gW ⟨0, by decide⟩ ⟨1, hx⟩ : Fin 3) : ℕ) = 1 := fun _ => rfl
    rw [Matrix.sub_apply, Matrix.mul_apply, Finset.sum_fin_eq_sum_range]
    simp only [localG, localF, localD, localGrad, Kloc, Nloc, Matrix.smul_apply,
      Matrix.mul_apply, Matrix.of_apply, Matrix.transpose_apply, Matrix.one_apply,
      smul_eq_mul, Finset.sum_fin_eq_sum_range]
    simp only [show ndof gW ⟨0, by decide⟩ = 2 from rfl]
    simp only [Finset.sum_range_succ, Finset.sum_range_zero, Finset.sum_range_one]
    simp only [e1, e2, e3, e4]
    norm_num [tol]
  · have e1 : ∀ hx, sgnLoc gW ⟨1, by decide⟩ ⟨0, hx⟩ = -1 := fun _ => rfl
    have e2 : ∀ hx, sgnLoc gW ⟨1, by decide⟩ ⟨1, hx⟩ = 1 := fun _ => rfl
    have e3 : ∀ hx, ((facesLoc gW ⟨1, by decide⟩ ⟨0, hx⟩ : Fin 3) : ℕ) = 1 := fun _ => rfl
    have e4 : ∀ hx, ((facesLoc gW ⟨1, by decide⟩ ⟨1, hx⟩ : Fin 3) : ℕ) = 2 := fun _ => rfl
    rw [Matrix.sub_apply, Matrix.mul_apply, Finset.sum_fin_eq_sum_range]
    simp only [localG, localF, localD, localGrad, Kloc, Nloc, Matrix.smul_apply,
      Matrix.mul_apply, Matrix.of_apply, Matrix.transpose_apply, Matrix.one_apply,
      smul_eq_mul, Finset.sum_fin_eq_sum_range]
    simp only [show ndof gW ⟨1, by decide⟩ = 2 from rfl]
    simp only [Finset.sum_range_succ, Finset.sum_range_zero, Finset.sum_range_one]
    simp only [e1, e2, e3, e4]
    norm_num [tol]

set_option maxHeartbeats 1000000 in
lemma gBad_cell0_bad : ¬ consistencyOK gBad kW ⟨0, by decide⟩ := by
  intro h
  have hh := h ⟨0, by decide⟩ ⟨0, by decide⟩
  have e1 : ∀ hx, sgnLoc gBad ⟨0, by decide⟩ ⟨0, hx⟩ = -1 := fun _ => rfl
  have e2 : ∀ hx, sgnLoc gBad ⟨0, by decide⟩ ⟨1, hx⟩ = 1 := fun _ => rfl
  have e3 : ∀ hx, facesLoc gBad ⟨0, by decide⟩ ⟨0, hx⟩ = (0 : Fin 3) := fun _ => rfl
  have e4 : ∀ hx, facesLoc gBad ⟨0, by decide⟩ ⟨1, hx⟩ = (1 : Fin 3) := fun _ => rfl
  rw [Matrix.sub_apply, Matrix.mul_apply, Finset.sum_fin_eq_sum_range] at hh
  simp only [localG, localF, localD, localGrad, Kloc, Nloc, Matrix.smul_apply,
    Matrix.mul_apply, Matrix.of_apply, Matrix.transpose_apply, Matrix.one_apply,
    smul_eq_mul, Finset.sum_fin_eq_sum_range] at hh
  simp only [show ndof gBad ⟨0, by decide⟩ = 2 from rfl] at hh
  simp only [Finset.sum_range_succ, Finset.sum_range_zero, Finset.sum_range_one] at hh
  simp only [e1, e2, e3, e4] at hh
  norm_num [tol, Fin.val_zero] at hh
  rw [abs_lt] at hh
  exact absurd hh.2 (by norm_num)

/-! ### Helper lemmas -/

lemma minv_eq {n : ℕ} (A : Matrix (Fin n) (Fin n) ℚ) : minv A = A⁻¹ := by
  rw [minv, Matrix.inv_def, Ring.inverse_eq_inv']

lemma Kloc_symm (g : Grid) (k : SecondOrderTensor g.num_cells) (c : Fin g.num_cells) :
    (Kloc g k c)ᵀ = Kloc g k c := by
  ext i j
  exact k.symm c (j : ℕ) (i : ℕ)

lemma localGrad_symm (g : Grid) (c : Fin g.num_cells) :
    (localGrad g c)ᵀ = localGrad g c := by
  rw [localGrad, Matrix.transpose_smul, Matrix.transpose_one]

lemma localG_symm (g : Grid) (k : SecondOrderTensor g.num_cells) (c : Fin g.num_cells) :
    (localG g k c)ᵀ = localG g k c := by
  rw [localG, Matrix.transpose_smul, Matrix.transpose_mul, Matrix.transpose_mul,
    Matrix.transpose_transpose, Kloc_symm, localGrad_symm, Matrix.mul_assoc]

lemma localA_symm (g : Grid) (k : SecondOrderTensor g.num_cells) (c : Fin g.num_cells) :
    (localA g k c)ᵀ = localA g k c := by
  rw [localA, Matrix.transpose_add, Matrix.transpose_smul]
  congr 1
  · rw [Matrix.transpose_mul, Matrix.transpose_mul, Matrix.transpose_transpose,
      localG_symm, Matrix.mul_assoc]
  · rw [Matrix.transpose_mul, Matrix.transpose_transpose]

lemma cooEntry_append {nf : ℕ} (l1 l2 : List (Fin nf × Fin nf × ℚ)) (i j : Fin nf) :
    cooEntry (l1 ++ l2) i j = cooEntry l1 i j + cooEntry l2 i j := by
  simp [cooEntry, List.map_append, List.sum_append]

lemma cooEntry_flatten {nf : ℕ} (ls : List (List (Fin nf × Fin nf × ℚ))) (i j : Fin nf) :
    cooEntry ls.flatten i j = (ls.map fun l => cooEntry l i j).sum := by
  induction ls with
  | nil => simp [cooEntry]
  | cons hd tl ih => simp [List.flatten_cons, cooEntry_append, ih]

lemma cooEntry_map_row (g : Grid) (k : SecondOrderTensor g.num_cells) (c : Fin g.num_cells)
    (r : Fin (ndof g c)) (i j : Fin g.num_faces) :
    cooEntry ((List.finRange (ndof g c)).map fun s =>
        (facesLoc g c r, facesLoc g c s, localA g k c r s)) i j =
      ∑ s, if facesLoc g c r = i ∧ facesLoc g c s = j then localA g k c r s else 0 := by
  rw [cooEntry, List.map_map, Fin.sum_univ_def]
  rfl

lemma cooEntry_cellTriplets (g : Grid) (k : SecondOrderTensor g.num_cells)
    (c : Fin g.num_cells) (i j : Fin g.num_faces) :
    cooEntry (cellTriplets g k c) i j =
      ∑ r, ∑ s, if facesLoc g c r = i ∧ facesLoc g c s = j then localA g k c r s else 0 := by
  rw [cellTriplets, cooEntry_flatten, List.map_map, Fin.sum_univ_def]
  have : ((fun l => cooEntry l i j) ∘ fun r => (List.finRange (ndof g c)).map fun s =>
      (facesLoc g c r, facesLoc g c s, localA g k c r s)) =
      fun r => ∑ s, if facesLoc g c r = i ∧ facesLoc g c s = j then localA g k c r s else 0 :=
    funext fun r => cooEntry_map_row g k c r i j
  rw [this]

lemma mass_apply (g : Grid) (k : SecondOrderTensor g.num_cells) (i j : Fin g.num_faces) :
    mass g k i j = ∑ c, cooEntry (cellTriplets g k c) i j := by
  show cooEntry (allTriplets g k) i j = _
  rw [allTriplets, cooEntry_flatten, List.map_map, Fin.sum_univ_def]
  rfl

lemma double_sum_unique {n : ℕ} (P : Fin n → Prop) [DecidablePred P]
    (A : Fin n → Fin n → ℚ) (i0 : Fin n) (hi : P i0) (huniq : ∀ r, P r → r = i0) :
    (∑ r, ∑ s, if P r ∧ P s then A r s else 0) = A i0 i0 := by
  rw [Finset.sum_eq_single i0]
  · rw [Finset.sum_eq_single i0]
    · rw [if_pos ⟨hi, hi⟩]
    · intro b _ hb
      exact if_neg fun hP => hb (huniq b hP.2)
    · intro habs
      exact absurd (Finset.mem_univ i0) habs
  · intro b _ hb
    exact Finset.sum_eq_zero fun s _ => if_neg fun hP => hb (huniq b hP.1)
  · intro habs
    exact absurd (Finset.mem_univ i0) habs

lemma double_sum_none {n : ℕ} (P : Fin n → Prop) [DecidablePred P]
    (A : Fin n → Fin n → ℚ) (hnone : ∀ r, ¬ P r) :
    (∑ r, ∑ s, if P r ∧ P s then A r s else 0) = 0 :=
  Finset.sum_eq_zero fun r _ => Finset.sum_eq_zero fun s _ => if_neg fun hP => hnone r hP.1

lemma mass_symm (g : Grid) (k : SecondOrderTensor g.num_cells) (i j : Fin g.num_faces) :
    mass g k i j = mass g k j i := by
  rw [mass_apply, mass_apply]
  refine Finset.sum_congr rfl fun c _ => ?_
  rw [cooEntry_cellTriplets, cooEntry_cellTriplets]
  rw [Finset.sum_comm]
  refine Finset.sum_congr rfl fun x _ => Finset.sum_congr rfl fun y _ => ?_
  have hA : localA g k c y x = localA g k c x y :=
    congrFun (congrFun (localA_symm g k c) x) y
  rw [hA]
  exact if_congr and_comm rfl rfl

/-! ### C1: additive assembly at shared faces -/

/-- C1: for every grid and permeability, if face `f` occurs exactly once in
cell `c1` (at position `i1`), exactly once in cell `c2 ≠ c1` (at position
`i2`), and in no other cell, then the `(f, f)` diagonal entry of the mass
block assembled by `matrix` is the sum of the two local diagonal
contributions: duplicate COO triplets are summed, not overwritten. -/
theorem mass_additive_at_shared_face (g : Grid) (k : SecondOrderTensor g.num_cells)
    (f : Fin g.num_faces) (c1 c2 : Fin g.num_cells)
    (i1 : Fin (ndof g c1)) (i2 : Fin (ndof g c2))
    (hne : c1 ≠ c2) (h1 : facesLoc g c1 i1 = f) (h2 : facesLoc g c2 i2 = f)
    (hu1 : ∀ r, facesLoc g c1 r = f → r = i1)
    (hu2 : ∀ r, facesLoc g c2 r = f → r = i2)
    (hother : ∀ c, c ≠ c1 → c ≠ c2 → ∀ r : Fin (ndof g c), facesLoc g c r ≠ f) :
    matrixVal g k (Fin.castAdd g.num_cells f) (Fin.castAdd g.num_cells f) =
      localA g k c1 i1 i1 + localA g k c2 i2 i2 := by
  have hmv : matrixVal g k (Fin.castAdd g.num_cells f) (Fin.castAdd g.num_cells f) =
      mass g k f f := by
    simp [matrixVal, Matrix.submatrix_apply, finSumFinEquiv_symm_apply_castAdd]
  rw [hmv, mass_apply]
  have hcell : ∀ c : Fin g.num_cells, cooEntry (cellTriplets g k c) f f =
      (if c = c1 then localA g k c1 i1 i1 else 0) +
      (if c = c2 then localA g k c2 i2 i2 else 0) := by
    intro c
    rw [cooEntry_cellTriplets]
    by_cases hc1 : c = c1
    · subst hc1
      rw [if_pos rfl, if_neg hne, add_zero]
      exact double_sum_unique (fun r => facesLoc g c r = f) _ i1 h1 hu1
    · by_cases hc2 : c = c2
      · subst hc2
        rw [if_neg hc1, if_pos rfl, zero_add]
        exact double_sum_unique (fun r => facesLoc g c r = f) _ i2 h2 hu2
      · rw [if_neg hc1, if_neg hc2, add_zero]
        exact double_sum_none (fun r => facesLoc g c r = f) _ (hother c hc1 hc2)
  rw [Finset.sum_congr rfl fun c _ => hcell c, Finset.sum_add_distrib,
    Finset.sum_ite_eq' Finset.univ c1 fun _ => localA g k c1 i1 i1,
    Finset.sum_ite_eq' Finset.univ c2 fun _ => localA g k c2 i2 i2,
    if_pos (Finset.mem_univ c1), if_pos (Finset.mem_univ c2)]

/-- C1 witness: on the two-cell 1D grid, the diagonal entry of the shared
face 1 is the sum of the two cells' local diagonal contributions. -/
theorem mass_additive_at_shared_face_inst :
    matrixVal gW kW (Fin.castAdd gW.num_cells ⟨1, by decide⟩)
        (Fin.castAdd gW.num_cells ⟨1, by decide⟩) =
      localA gW kW ⟨0, by decide⟩ ⟨1, by decide⟩ ⟨1, by decide⟩ +
      localA gW kW ⟨1, by decide⟩ ⟨0, by decide⟩ ⟨0, by decide⟩ :=
  mass_additive_at_shared_face gW kW ⟨1, by decide⟩ ⟨0, by decide⟩ ⟨1, by decide⟩
    ⟨1, by decide⟩ ⟨0, by decide⟩ (by decide) (by decide) (by decide)
    (by decide) (by decide) (by decide)

/-! ### C2: the consistency assertion aborts `matrix` -/

/-- C2: `matrix` produces no result as soon as some cell violates the
consistency identity `|G - F·D| < 1e-10`, and produces the assembled system
when every cell satisfies it (the assertion branch is never taken). -/
theorem matrix_consistency_abort {α : Type} (g : Grid) (k : SecondOrderTensor g.num_cells)
    (bc : α) :
    ((∃ c, ¬ consistencyOK g k c) → matrix g k bc = none) ∧
    ((∀ c, consistencyOK g k c) → matrix g k bc = some (matrixVal g k)) := by
  constructor
  · rintro ⟨c, hc⟩
    rw [matrix.eq_def, if_neg fun hall => hc (hall c)]
  · intro hall
    rw [matrix.eq_def, if_pos hall]

/-- C2 witness: on the perturbed grid `gBad` the assembly aborts. -/
theorem matrix_consistency_abort_inst : matrix gBad kW () = none :=
  (matrix_consistency_abort gBad kW ()).1 ⟨⟨0, by decide⟩, gBad_cell0_bad⟩

/-! ### C3: the local stiffness block and its symmetry -/

/-- C3: the local block equals
`A = Pi_sᵀ G Pi_s + w (I - D Pi_s)ᵀ (I - D Pi_s)` with `Pi_s = G⁻¹ F` and
`w = ‖K⁻¹‖_∞`, and `A` is symmetric. -/
theorem localA_formula_and_symm (g : Grid) (k : SecondOrderTensor g.num_cells)
    (c : Fin g.num_cells) :
    localA g k c =
      ((localG g k c)⁻¹ * localF g c)ᵀ * localG g k c * ((localG g k c)⁻¹ * localF g c) +
        normInf ((Kloc g k c)⁻¹) •
          ((1 - localD g k c * ((localG g k c)⁻¹ * localF g c))ᵀ *
            (1 - localD g k c * ((localG g k c)⁻¹ * localF g c))) ∧
    (localA g k c)ᵀ = localA g k c := by
  constructor
  · simp only [localA, Pi_s, I_Pi, stabWeight, minv_eq, Matrix.mul_assoc]
  · exact localA_symm g k c

/-! ### C4: block structure of the assembled saddle-point matrix -/

/-- C4: any matrix returned by `matrix` is the square block system of size
`num_faces + num_cells` whose pressure-pressure block is zero, whose
lower-left block is `-g.cell_facesᵀ` with the upper-right block its
transpose, and whose mass block is symmetric. -/
theorem matrix_block_structure {α : Type} (g : Grid) (k : SecondOrderTensor g.num_cells)
    (bc : α)
    (M : Matrix (Fin (g.num_faces + g.num_cells)) (Fin (g.num_faces + g.num_cells)) ℚ)
    (h : matrix g k bc = some M) :
    (∀ i j : Fin g.num_cells,
        M (Fin.natAdd g.num_faces i) (Fin.natAdd g.num_faces j) = 0) ∧
    (∀ (i : Fin g.num_cells) (j : Fin g.num_faces),
        M (Fin.natAdd g.num_faces i) (Fin.castAdd g.num_cells j) = (-(cell_faces g)ᵀ) i j) ∧
    (∀ (i : Fin g.num_faces) (j : Fin g.num_cells),
        M (Fin.castAdd g.num_cells i) (Fin.natAdd g.num_faces j) =
          M (Fin.natAdd g.num_faces j) (Fin.castAdd g.num_cells i)) ∧
    (∀ i j : Fin g.num_faces,
        M (Fin.castAdd g.num_cells i) (Fin.castAdd g.num_cells j) =
          M (Fin.castAdd g.num_cells j) (Fin.castAdd g.num_cells i)) := by
  have hM : M = matrixVal g k := by
    by_cases hc : ∀ c, consistencyOK g k c
    · rw [matrix.eq_def, if_pos hc] at h
      exact (Option.some_inj.mp h).symm
    · rw [matrix.eq_def, if_neg hc] at h
      cases h
  subst hM
  refine ⟨fun i j => ?_, fun i j => ?_, fun i j => ?_, fun i j => ?_⟩
  · simp [matrixVal, Matrix.submatrix_apply, finSumFinEquiv_symm_apply_natAdd]
  · simp [matrixVal, Matrix.submatrix_apply, finSumFinEquiv_symm_apply_natAdd,
      finSumFinEquiv_symm_apply_castAdd, div]
  · simp [matrixVal, Matrix.submatrix_apply, finSumFinEquiv_symm_apply_natAdd,
      finSumFinEquiv_symm_apply_castAdd, div]
  · simp only [matrixVal, Matrix.submatrix_apply, finSumFinEquiv_symm_apply_castAdd,
      Matrix.fromBlocks_apply₁₁]
    exact mass_symm g k i j

/-- C4 witness: the system assembled on the two-cell grid has a zero
pressure-pressure entry and a symmetric mass block. -/
theorem matrix_block_structure_inst :
    matrixVal gW kW (Fin.natAdd gW.num_faces ⟨0, by decide⟩)
        (Fin.natAdd gW.num_faces ⟨1, by decide⟩) = 0 ∧
    matrixVal gW kW (Fin.castAdd gW.num_cells ⟨0, by decide⟩)
        (Fin.castAdd gW.num_cells ⟨1, by decide⟩) =
      matrixVal gW kW (Fin.castAdd gW.num_cells ⟨1, by decide⟩)
        (Fin.castAdd gW.num_cells ⟨0, by decide⟩) := by
  have h := matrix_block_structure gW kW () (matrixVal gW kW)
    (by rw [matrix.eq_def, if_pos gW_consistent])
  exact ⟨h.1 _ _, h.2.2.2 _ _⟩

/-! ### C7, C8: `extract` -/

/-- C7: on a vector of length `num_faces + num_cells`, `extract` returns the
first `num_faces` entries and the remaining `num_cells` entries, and
concatenating the two outputs reproduces the input. -/
theorem extract_round_trip (g : Grid) (up : List ℚ)
    (h : up.length = g.num_faces + g.num_cells) :
    (extract g up).1 = up.take g.num_faces ∧
    (extract g up).2 = up.drop g.num_faces ∧
    (extract g up).1.length = g.num_faces ∧
    (extract g up).2.length = g.num_cells ∧
    (extract g up).1 ++ (extract g up).2 = up := by
  refine ⟨rfl, rfl, ?_, ?_, ?_⟩
  · rw [show (extract g up).1 = up.take g.num_faces from rfl, List.length_take, h]
    omega
  · rw [show (extract g up).2 = up.drop g.num_faces from rfl, List.length_drop, h]
    omega
  · exact List.take_append_drop _ _

/-- C7 witness: round trip on a concrete vector of matching length. -/
theorem extract_round_trip_inst :
    ([1, 2, 3, 4, 5] : List ℚ).length = gW.num_faces + gW.num_cells ∧
    (extract gW [1, 2, 3, 4, 5]).1 ++ (extract gW [1, 2, 3, 4, 5]).2 =
      ([1, 2, 3, 4, 5] : List ℚ) :=
  ⟨rfl, (extract_round_trip gW [1, 2, 3, 4, 5] rfl).2.2.2.2⟩

/-- C8 counterexample: `extract` does not reject a vector whose length
differs from `num_faces + num_cells`; on the empty vector (length 0 ≠ 5 for
`gW`) it returns a normal result instead of failing. -/
theorem extract_size_mismatch_counterexample :
    (([] : List ℚ)).length ≠ gW.num_faces + gW.num_cells ∧
    extract gW ([] : List ℚ) = ([], []) :=
  ⟨by decide, rfl⟩

/-- C8 amended: `extract` performs no size validation at all; for an input
of any length it returns the clamped slices `(up[:nf], up[nf:])`, whose
concatenation always reproduces the input. -/
theorem extract_total_no_check (g : Grid) (up : List ℚ) :
    extract g up = (up.take g.num_faces, up.drop g.num_faces) ∧
    (extract g up).1 ++ (extract g up).2 = up :=
  ⟨rfl, List.take_append_drop _ _⟩

/-! ### C9: the `bc` argument is never read -/

/-- C9: `matrix` and `rhs` are independent of the optional `bc` argument:
any two values of any type give identical results. -/
theorem bc_independent {α β : Type} (g : Grid) (k : SecondOrderTensor g.num_cells)
    (f : (ℕ → ℚ) → ℚ) (bc1 bc2 : α) (bc3 bc4 : β) :
    matrix g k bc1 = matrix g k bc2 ∧ rhs g f bc3 = rhs g f bc4 :=
  ⟨rfl, rfl⟩

/-! ### C10: `projectU` re-runs the consistency assertion -/

/-- C10: `projectU` re-checks the same per-cell consistency identity as
`matrix`: it produces no reconstructed field when some cell violates it,
produces the projected field when all cells pass, and for any solution
vector it fails exactly when `matrix` fails. -/
theorem projectU_consistency_abort {α : Type} (g : Grid)
    (k : SecondOrderTensor g.num_cells) (u : Fin g.num_faces → ℚ) (bc : α) :
    ((∃ c, ¬ consistencyOK g k c) → projectU g k u = none) ∧
    ((∀ c, consistencyOK g k c) → projectU g k u = some (projectUVal g k u)) ∧
    (projectU g k u = none ↔ matrix g k bc = none) := by
  refine ⟨?_, ?_, ?_⟩
  · rintro ⟨c, hc⟩
    rw [projectU.eq_def, if_neg fun hall => hc (hall c)]
  · intro hall
    rw [projectU.eq_def, if_pos hall]
  · rw [projectU.eq_def, matrix.eq_def]
    by_cases hc : ∀ c, consistencyOK g k c
    · rw [if_pos hc, if_pos hc]
      simp
    · rw [if_neg hc, if_neg hc]
      simp

/-- C10 witness: vector-field reconstruction on the perturbed grid `gBad`
aborts with the same geometric-inconsistency failure as assembly. -/
theorem projectU_consistency_abort_inst : projectU gBad kW (fun _ => 0) = none :=
  (projectU_consistency_abort gBad kW (fun _ => 0) ()).1 ⟨⟨0, by decide⟩, gBad_cell0_bad⟩

/-! ### Mesh hierarchy: face tagging (`tag_faces`) and inter-dimensional
coupling (`assemble_in_bucket`) from `porepy/fracs/meshing.py` -/

/-- The `FaceTag` classification of faces. -/
inductive FaceTag
  | NONE
  | DOMAIN_BOUNDARY
  | FRACTURE
  | TIP
deriving DecidableEq

/-- The part of the external grid capability read by the mesh-hierarchy
builder.  `faceNodes f` is column `f` of the CSC matrix `g.face_nodes`
(the local node indices of face `f`), `cellNodes c` the node list of cell
`c` of a lower-dimensional grid, `global_point_ind` the shared global node
numbering, and `boundaryFaces` the result of `g.get_boundary_faces()`. -/
structure MGrid where
  num_nodes : ℕ
  num_faces : ℕ
  num_cells : ℕ
  faceNodes : Fin num_faces → List (Fin num_nodes)
  cellNodes : Fin num_cells → List (Fin num_nodes)
  global_point_ind : Fin num_nodes → ℕ
  boundaryFaces : List (Fin num_faces)

/-- `nodes_glb`: the concatenation, over all boundary faces, of the global
node indices of each face (the `mcolon` gather over the CSC ranges followed
by the `global_point_ind` lookup). -/
def bndNodesGlb (g : MGrid) : List ℕ :=
  (g.boundaryFaces.map fun f => (g.faceNodes f).map g.global_point_ind).flatten

/-- `is_tip = np.in1d(nodes_glb, bnd_nodes, invert=True)`: one flag per
gathered node, true when the node is not a global boundary node. -/
def isTipList (bnd : List ℕ) (g : MGrid) : List Bool :=
  (bndNodesGlb g).map fun n => decide (n ∉ bnd)

/-- Column `j` of `is_tip.reshape((n_per_face, bnd_faces_l.size), order='F')`
reduced with `np.any(axis=0)`. -/
def tipFlag (nper : ℕ) (bnd : List ℕ) (g : MGrid) (j : ℕ) : Bool :=
  (((isTipList bnd g).drop (j * nper)).take nper).any id

/-- The tag assigned by `tag_faces` to a face of an intermediate-dimension
grid, given the global boundary nodes `bnd` of the highest-dimensional grid:
faces on the grid's own boundary receive TIP when their `is_tip` column
contains `true` (`g.add_face_tag(bnd_faces_l[is_tip], FaceTag.TIP)`) and
DOMAIN_BOUNDARY otherwise; faces off the boundary keep NONE. -/
def tag_faces (nper : ℕ) (bnd : List ℕ) (g : MGrid) (f : Fin g.num_faces) : FaceTag :=
  if f ∈ g.boundaryFaces then
    (if tipFlag nper bnd g (g.boundaryFaces.indexOf f) then FaceTag.TIP
     else FaceTag.DOMAIN_BOUNDARY)
  else FaceTag.NONE

/-- Auxiliary: `np.any` over an elementwise-mapped list. -/
lemma any_map_id {α : Type} (l : List α) (p : α → Bool) : (l.map p).any id = l.any p := by
  induction l with
  | nil => rfl
  | cons a l ih => simp [List.any_cons, ih]

/-- Column `j` of an F-order reshape of a flattened list of uniform-length
blocks is the `j`-th block. -/
lemma flatten_drop_take {α : Type} (n : ℕ) :
    ∀ (ls : List (List α)) (j : ℕ), (∀ l ∈ ls, l.length = n) → j < ls.length →
      (ls.flatten.drop (j * n)).take n = ls.getD j [] := by
  intro ls
  induction ls with
  | nil =>
    intro j _ hj
    simp at hj
  | cons hd tl ih =>
    intro j hlen hj
    have hhd : hd.length = n := hlen hd (List.mem_cons_self hd tl)
    cases j with
    | zero =>
      simp only [Nat.zero_mul, List.drop_zero, List.flatten_cons, List.getD_cons_zero]
      have h1 : List.take n (hd ++ tl.flatten) = hd := by
        rw [← hhd, List.take_left]
      exact h1
    | succ j' =>
      have h1 : List.drop n (hd ++ tl.flatten) = tl.flatten := by
        rw [← hhd, List.drop_left]
      have hmul : (j' + 1) * n = n + j' * n := by ring
      rw [List.getD_cons_succ, List.flatten_cons, hmul, ← List.drop_drop, h1]
      exact ih j' (fun l hl => hlen l (List.mem_cons_of_mem hd hl))
        (Nat.lt_of_succ_lt_succ hj)

/-! ### C5: TIP versus DOMAIN_BOUNDARY on intermediate grids -/

/-- C5 counterexample: on an intermediate grid whose single boundary face
has global nodes `{0, 5}` while the global boundary nodes are `{0}`, one of
the face's nodes is a global boundary node, so the claim predicts
DOMAIN_BOUNDARY, but `tag_faces` tags the face TIP (it tags TIP as soon as
any node is away from the global boundary). -/
@[reducible] def gC5 : MGrid where
  num_nodes := 2
  num_faces := 1
  num_cells := 1
  faceNodes := fun _ => [⟨0, by decide⟩, ⟨1, by decide⟩]
  cellNodes := fun _ => [⟨0, by decide⟩, ⟨1, by decide⟩]
  global_point_ind := fun n => if (n : ℕ) = 0 then 0 else 5
  boundaryFaces := [⟨0, by decide⟩]

theorem tag_faces_counterexample :
    (⟨0, by decide⟩ : Fin gC5.num_faces) ∈ gC5.boundaryFaces ∧
    (∃ n ∈ (gC5.faceNodes ⟨0, by decide⟩).map gC5.global_point_ind, n ∈ [0]) ∧
    tag_faces 2 [0] gC5 ⟨0, by decide⟩ = FaceTag.TIP ∧
    tag_faces 2 [0] gC5 ⟨0, by decide⟩ ≠ FaceTag.DOMAIN_BOUNDARY := by
  decide

/-- C5 amended: on an intermediate grid all of whose boundary faces have
`nper` nodes, a boundary face is tagged TIP exactly when at least one of its
nodes is not a global boundary node of the highest-dimensional grid, and
DOMAIN_BOUNDARY exactly when all of its nodes are global boundary nodes; no
face receives both tags. -/
theorem tag_faces_boundary_classification (nper : ℕ) (bnd : List ℕ) (g : MGrid)
    (hlen : ∀ f ∈ g.boundaryFaces, (g.faceNodes f).length = nper)
    (f : Fin g.num_faces) (hf : f ∈ g.boundaryFaces) :
    (tag_faces nper bnd g f = FaceTag.TIP ↔
      ∃ n ∈ (g.faceNodes f).map g.global_point_ind, n ∉ bnd) ∧
    (tag_faces nper bnd g f = FaceTag.DOMAIN_BOUNDARY ↔
      ∀ n ∈ (g.faceNodes f).map g.global_point_ind, n ∈ bnd) ∧
    ¬ (tag_faces nper bnd g f = FaceTag.TIP ∧
       tag_faces nper bnd g f = FaceTag.DOMAIN_BOUNDARY) := by
  have hidx : g.boundaryFaces.indexOf f < g.boundaryFaces.length :=
    List.indexOf_lt_length.mpr hf
  have hflag : tipFlag nper bnd g (g.boundaryFaces.indexOf f) =
      ((g.faceNodes f).map g.global_point_ind).any fun n => decide (n ∉ bnd) := by
    rw [tipFlag, isTipList, bndNodesGlb, ← List.map_drop, ← List.map_take,
      flatten_drop_take nper _ _
        (by
          intro l hl
          obtain ⟨f', hf', rfl⟩ := List.mem_map.mp hl
          rw [List.length_map]
          exact hlen f' hf')
        (by simpa using hidx)]
    rw [List.getD_eq_getElem _ _ (by simpa using hidx), List.getElem_map,
      List.getElem_indexOf hidx]
    exact any_map_id _ _
  have htag : tag_faces nper bnd g f =
      (if ((g.faceNodes f).map g.global_point_ind).any (fun n => decide (n ∉ bnd)) then
        FaceTag.TIP else FaceTag.DOMAIN_BOUNDARY) := by
    rw [tag_faces.eq_def, if_pos hf, hflag]
  by_cases hany :
      ((g.faceNodes f).map g.global_point_ind).any (fun n => decide (n ∉ bnd)) = true
  · rw [htag, if_pos hany]
    obtain ⟨n, hn, hnb⟩ := List.any_eq_true.mp hany
    refine ⟨iff_of_true rfl ⟨n, hn, of_decide_eq_true hnb⟩, iff_of_false (by decide) ?_, ?_⟩
    · intro hall
      exact of_decide_eq_true hnb (hall n hn)
    · rintro ⟨-, habs⟩
      cases habs
  · rw [htag, if_neg hany]
    have hall : ∀ n ∈ (g.faceNodes f).map g.global_point_ind, n ∈ bnd := by
      intro n hn
      by_contra hnb
      exact hany (List.any_eq_true.mpr ⟨n, hn, decide_eq_true hnb⟩)
    refine ⟨iff_of_false (by decide) ?_, iff_of_true rfl hall, ?_⟩
    · rintro ⟨n, hn, hnb⟩
      exact hnb (hall n hn)
    · rintro ⟨habs, -⟩
      cases habs

/-- C5 amended witness: applying the classification to the concrete grid
`gC5` tags its boundary face TIP because node 5 is off the global
boundary. -/
theorem tag_faces_boundary_classification_inst :
    tag_faces 2 [0] gC5 ⟨0, by decide⟩ = FaceTag.TIP := by
  have h := tag_faces_boundary_classification 2 [0] gC5 (by decide)
    ⟨0, by decide⟩ (by decide)
  exact h.1.mpr ⟨5, by decide, by decide⟩

/-! ### C6: the inter-dimensional coupling matrix -/

/-- Sorted global-node signature of column `f` of
`fn = np.sort(global_point_ind[face_nodes.indices.reshape((nper, num_faces), order='F')], axis=0)`. -/
def faceSig (nper : ℕ) (hg : MGrid) (f : Fin hg.num_faces) : List ℕ :=
  ((((((List.finRange hg.num_faces).map fun f' => hg.faceNodes f').flatten).drop
      ((f : ℕ) * nper)).take nper).map hg.global_point_ind).insertionSort (· ≤ ·)

/-- Modelled from the spec: the sorted global-node signature of a
lower-dimensional cell's boundary, as used by `utils.obtain_interdim_mappings`
(that function lives in a utilities module that is not among the sources;
the spec describes it as building the same sorted signature for every cell
boundary of the lower-dimensional grid). -/
def cellSig (lg : MGrid) (c : Fin lg.num_cells) : List ℕ :=
  ((lg.cellNodes c).map lg.global_point_ind).insertionSort (· ≤ ·)

/-- Modelled from the spec: `utils.obtain_interdim_mappings` returns the
pairs `(cell_2_face, cell)` of a higher-dimensional face and a
lower-dimensional cell whose sorted global-node signatures are set-equal. -/
def obtain_interdim_mappings (nper : ℕ) (hg lg : MGrid) :
    List (Fin hg.num_faces × Fin lg.num_cells) :=
  ((List.finRange hg.num_faces).map fun f =>
    ((List.finRange lg.num_cells).filter fun c =>
      decide (cellSig lg c = faceSig nper hg f)).map fun c => (f, c)).flatten

/-- The boolean coupling matrix `face_cells`, built by `sps.csc_matrix`
from the matching pairs with shape `(lg.num_cells, hg.num_faces)`: rows are
lower-dimensional cells, columns are higher-dimensional faces. -/
def face_cells (nper : ℕ) (hg lg : MGrid) :
    Fin lg.num_cells → Fin hg.num_faces → Bool :=
  fun c f => decide ((f, c) ∈ obtain_interdim_mappings nper hg lg)

/-- The per-pair edge registration of `assemble_in_bucket`: the coupling
matrix becomes a bucket edge only when `face_cells.size > 0`; an empty
coupling is silently skipped. -/
def assemble_in_bucket (nper : ℕ) (hg lg : MGrid) :
    Option (Fin lg.num_cells → Fin hg.num_faces → Bool) :=
  if 0 < (obtain_interdim_mappings nper hg lg).length then some (face_cells nper hg lg)
  else none

/-- C6: the coupling matrix has an entry true exactly where the sorted
global-node signature of the higher-dimensional face equals that of the
lower-dimensional cell, and a bucket edge is registered for the pair if and
only if the coupling matrix is non-empty (an empty coupling is not an
error: the edge is simply omitted, and any registered edge carries exactly
the coupling matrix). -/
theorem assemble_in_bucket_coupling (nper : ℕ) (hg lg : MGrid) :
    (∀ (c : Fin lg.num_cells) (f : Fin hg.num_faces),
        face_cells nper hg lg c f = true ↔ cellSig lg c = faceSig nper hg f) ∧
    ((assemble_in_bucket nper hg lg).isSome = true ↔
        ∃ c f, face_cells nper hg lg c f = true) ∧
    (∀ M, assemble_in_bucket nper hg lg = some M → M = face_cells nper hg lg) := by
  have hmem : ∀ (c : Fin lg.num_cells) (f : Fin hg.num_faces),
      (f, c) ∈ obtain_interdim_mappings nper hg lg ↔
        cellSig lg c = faceSig nper hg f := by
    intro c f
    simp [obtain_interdim_mappings, List.mem_flatten, List.mem_map, List.mem_filter,
      List.mem_finRange, Prod.ext_iff]
  have hfc : ∀ (c : Fin lg.num_cells) (f : Fin hg.num_faces),
      face_cells nper hg lg c f = true ↔ cellSig lg c = faceSig nper hg f := by
    intro c f
    rw [face_cells.eq_def, decide_eq_true_eq]
    exact hmem c f
  refine ⟨hfc, ?_, fun M hM => ?_⟩
  · rw [assemble_in_bucket.eq_def]
    by_cases hpos : 0 < (obtain_interdim_mappings nper hg lg).length
    · rw [if_pos hpos]
      obtain ⟨⟨f, c⟩, hp⟩ := List.exists_mem_of_length_pos hpos
      exact iff_of_true rfl ⟨c, f, (hfc c f).mpr ((hmem c f).mp hp)⟩
    · rw [if_neg hpos]
      have hno : ¬ ∃ c f, face_cells nper hg lg c f = true := by
        rintro ⟨c, f, hcf⟩
        exact hpos (List.length_pos.mpr
          (List.ne_nil_of_mem ((hmem c f).mpr ((hfc c f).mp hcf))))
      simp [hno]
  · rw [assemble_in_bucket.eq_def] at hM
    by_cases hpos : 0 < (obtain_interdim_mappings nper hg lg).length
    · rw [if_pos hpos] at hM
      exact (Option.some_inj.mp hM).symm
    · rw [if_neg hpos] at hM
      cases hM

/-- C6 witness: a one-face grid coupled with a one-cell grid over the same
global nodes: the signatures match, the coupling entry is true, and the
edge is registered. -/
theorem assemble_in_bucket_coupling_inst :
    face_cells 2 gC5 gC5 ⟨0, by decide⟩ ⟨0, by decide⟩ = true ∧
    (assemble_in_bucket 2 gC5 gC5).isSome = true := by
  have h := assemble_in_bucket_coupling 2 gC5 gC5
  have hfc : face_cells 2 gC5 gC5 ⟨0, by decide⟩ ⟨0, by decide⟩ = true :=
    (h.1 ⟨0, by decide⟩ ⟨0, by decide⟩).mpr (by decide)
  exact ⟨hfc, h.2.1.mpr ⟨⟨0, by decide⟩, ⟨0, by decide⟩, hfc⟩⟩

end PorePy
